import Mathlib

/-!
Verification of the check-resolution and audience engine
(`world/stat_checks/check_maker.py`, `server/utils/notifier.py`).

The Python classes are embedded shallowly: each class becomes a structure,
each method a function on that structure.  External collaborators that the
engine only consumes (trait lookups, weight tables, the result-band table,
the template renderer) are gathered into an explicit `CheckContext` of
injected functions, mirroring the interfaces the design names.  Random
draws are made explicit: `randint` receives an entropy value and reduces it
into the requested range, so every draw is a pure function of its entropy.
-/

/-- A character-like identity.  Identity is the `id` field; `name`/`key` are
display data.  `is_staff` models the external staff predicate (used both by
`is_staff()` and by `check_permstring("Builders")`), `is_gm` the external
GM predicate. -/
structure Character where
  id : Nat
  name : String
  key : String
  is_staff : Bool
  is_gm : Bool
deriving DecidableEq

/-- A difficulty rating: a named tier with an integer penalty value
(`world.stat_checks.models.DifficultyRating`, consumed as reference data). -/
structure DifficultyRating where
  name : String
  value : Int
deriving DecidableEq

/-- A qualitative result band (`world.stat_checks.models.RollResult`,
consumed as reference data): named, ordered by `value`, with a
success/failure polarity. -/
structure RollResult where
  name : String
  value : Int
  is_success : Bool
deriving DecidableEq

/-- Classification of a raw 1-100 draw (`NaturalRollType`): crit or botch. -/
structure NaturalRollType where
  name : String
  is_crit : Bool
deriving DecidableEq

/-- The injected external lookups consumed by roll execution: trait values,
the `StatWeight` weighting table, natural-roll classification, the
result-band lookup, knack modifiers (absent handler modelled as `none`),
and the band template renderer. -/
structure CheckContext where
  get_stat_value : Character → String → Int
  get_skill_value : Character → String → Int
  get_weighted_value_for_stat : Int → Bool → Int
  get_weighted_value_for_skill : Int → Int
  get_weighted_value_for_knack : Int → Int
  mods : Character → Option (List (Option String) → List (Option String) → Int)
  get_roll_type : Int → Option NaturalRollType
  get_instance_for_roll : Int → Option NaturalRollType → RollResult
  render : RollResult → Character → Int → Option NaturalRollType → String

/-- The module-level tie threshold constant (`TIE_THRESHOLD = 5`). -/
def TIE_THRESHOLD : Int := 5

/-- The `SimpleRoll` object.  Construction-time fields come first; the
fields set by `execute` start as `none`, mirroring the `None`
initialisation in `__init__`. -/
structure SimpleRoll where
  character : Character
  stat : Option String := none
  skill : Option String := none
  rating : Option DifficultyRating := none
  receivers : List Character := []
  tie_threshold : Int := TIE_THRESHOLD
  raw_roll : Option Int := none
  result_value : Option Int := none
  roll_result_object : Option RollResult := none
  natural_roll_type : Option NaturalRollType := none
  result_message : Option String := none
deriving DecidableEq

/-- Models `SimpleRoll.__lt__`: same result band compares by
`result_value + tie_threshold < other.result_value` (the caller's
threshold), different bands compare by band ordinal.  On unresolved
operands the source raises (`AttributeError`/`TypeError`); those cases are
modelled as `false` and every claim quantifies over resolved rolls only. -/
def rollLt (a b : SimpleRoll) : Bool :=
  if a.roll_result_object = b.roll_result_object then
    match a.result_value, b.result_value with
    | some va, some vb => decide (va + a.tie_threshold < vb)
    | _, _ => false
  else
    match a.roll_result_object, b.roll_result_object with
    | some ra, some rb => decide (ra.value < rb.value)
    | _, _ => false

/-- Models `SimpleRoll.__eq__`: same apparent result object and result
values within the caller's tie threshold (inclusive).  Unresolved
`result_value` operands (a `TypeError` in the source) are modelled as
`false`. -/
def rollEq (a b : SimpleRoll) : Bool :=
  match a.result_value, b.result_value with
  | some va, some vb =>
      a.roll_result_object = b.roll_result_object && decide (|va - vb| ≤ a.tie_threshold)
  | _, _ => false

/-- Models the module-level `check_rolls_tied(roll1, roll2, tie_value)`:
different result objects are never tied; otherwise tied iff the absolute
difference of result values is strictly below `tie_value`. -/
def check_rolls_tied (roll1 roll2 : SimpleRoll) (tie_value : Int := TIE_THRESHOLD) : Bool :=
  if roll1.roll_result_object ≠ roll2.roll_result_object then false
  else
    match roll1.result_value, roll2.result_value with
    | some v1, some v2 => decide (|v1 - v2| < tie_value)
    | _, _ => false

/-- Models `random.randint(lo, hi)`: the entropy value reduced into
`[lo, hi]`. -/
def randint (lo hi : Int) (entropy : Nat) : Int :=
  lo + (entropy % (hi - lo + 1).toNat)

/-- Models `SimpleRoll.get_roll_value_for_stat`: zero without a stat, else
the weighted stat value, weighting differently when the stat is rolled
alone. -/
def get_roll_value_for_stat (ctx : CheckContext) (roll : SimpleRoll) : Int :=
  match roll.stat with
  | none => 0
  | some st =>
      ctx.get_weighted_value_for_stat (ctx.get_stat_value roll.character st) roll.skill.isNone

/-- Models `SimpleRoll.get_roll_value_for_skill`. -/
def get_roll_value_for_skill (ctx : CheckContext) (roll : SimpleRoll) : Int :=
  match roll.skill with
  | none => 0
  | some sk => ctx.get_weighted_value_for_skill (ctx.get_skill_value roll.character sk)

/-- Models `SimpleRoll.get_roll_value_for_traits`: stat plus skill
contribution. -/
def get_roll_value_for_traits (ctx : CheckContext) (roll : SimpleRoll) : Int :=
  get_roll_value_for_stat ctx roll + get_roll_value_for_skill ctx roll

/-- Models `SimpleRoll.get_roll_value_for_knack`: a missing modifier
handler (`AttributeError` on `character.mods`) yields zero. -/
def get_roll_value_for_knack (ctx : CheckContext) (roll : SimpleRoll) : Int :=
  match ctx.mods roll.character with
  | none => 0
  | some f => ctx.get_weighted_value_for_knack (f [roll.stat] [roll.skill])

/-- Models `SimpleRoll.execute`: draws the raw roll, sums weighted
contributions minus the difficulty penalty, classifies the natural roll and
the result band, and renders the result message.  Reading `rating.value`
with no rating set raises in the source, hence the `Option` result. -/
def execute (ctx : CheckContext) (entropy : Nat) (roll : SimpleRoll) : Option SimpleRoll :=
  match roll.rating with
  | none => none
  | some rt =>
      let raw := randint 1 100 entropy
      let val := get_roll_value_for_traits ctx roll + get_roll_value_for_knack ctx roll
        - rt.value + raw
      let nrt := ctx.get_roll_type raw
      let result_obj := ctx.get_instance_for_roll val nrt
      some { roll with
        raw_roll := some raw
        result_value := some val
        natural_roll_type := nrt
        roll_result_object := some result_obj
        result_message := some (ctx.render result_obj roll.character val nrt) }

/-- Stable insertion used to model Python's stable `sorted`: the new
element `x` is placed immediately before the first listed element `y` with
`p y x = true`, so elements the comparison cannot separate keep their
original relative order.  For a descending sort `p` is `__lt__` itself;
for an ascending sort `p y x` tests `x < y`. -/
def insertBefore (p : α → α → Bool) : List α → α → List α
  | [], x => [x]
  | y :: ys, x => if p y x then x :: y :: ys else y :: insertBefore p ys x

/-- Stable sort by repeated `insertBefore`, processing the input left to
right (the canonical model of CPython's stable sort at the granularity its
documentation specifies: comparisons via `__lt__`, equal or incomparable
elements keep input order). -/
def stableSortBy (p : α → α → Bool) (xs : List α) : List α :=
  xs.foldl (insertBefore p) []

/-- Models `sorted(rolls, reverse=True)` as used by `RollResults.__init__`
and `OpposingRolls.announce`: stable descending sort under
`SimpleRoll.__lt__`. -/
def sortDesc (rolls : List SimpleRoll) : List SimpleRoll :=
  stableSortBy rollLt rolls

/-- Models Python `sorted` on name strings (ascending, lexicographic). -/
def sortStrings (names : List String) : List String :=
  stableSortBy (fun y x => decide (x < y)) names

/-- One iteration of the loop in `RollResults.rank_results`: a roll equal
to the first member of the last open group joins that group, otherwise it
opens a new singleton group. -/
def rankStep (results : List (List SimpleRoll)) (roll : SimpleRoll) : List (List SimpleRoll) :=
  let is_tie :=
    match results.getLast? with
    | some last_results =>
        match last_results.head? with
        | some first => rollEq first roll
        | none => false
    | none => false
  if is_tie then results.dropLast ++ [(results.getLast?.getD []) ++ [roll]]
  else results ++ [[roll]]

/-- Models `RollResults.rank_results` applied to the field populated by
`__init__`: groups the (already sorted) rolls into tie groups. -/
def rank_results (sorted_rolls : List SimpleRoll) : List (List SimpleRoll) :=
  sorted_rolls.foldl rankStep []

/-- The full `RollResults` pipeline: `__init__` sorts descending, then
`rank_results` groups ties. -/
def rollResultsRanked (rolls : List SimpleRoll) : List (List SimpleRoll) :=
  rank_results (sortDesc rolls)

/-- The verdict of an opposed check. -/
inductive Verdict where
  | tie : Verdict
  | winner : Character → Verdict
deriving DecidableEq

/-- The `OpposingRolls` aggregate: two rolls plus the caller and target. -/
structure OpposingRolls where
  roll1 : SimpleRoll
  roll2 : SimpleRoll
  caller : Character
  target : Character

/-- Models `OpposingRolls.announce`: executes both rolls, sorts the pair
descending, and produces a tie verdict when the rolls compare equal,
otherwise names the first roll of the sorted pair the winner.  Returns the
two resolved rolls together with the verdict. -/
def announce (ctx : CheckContext) (e1 e2 : Nat) (o : OpposingRolls) :
    Option (SimpleRoll × SimpleRoll × Verdict) := do
  let r1 ← execute ctx e1 o.roll1
  let r2 ← execute ctx e2 o.roll2
  let rolls := sortDesc [r1, r2]
  let result := if rollEq r1 r2 then Verdict.tie
    else Verdict.winner ((rolls.head?.getD r1).character)
  some (r1, r2, result)

/-- Modelled from the spec: `check_staff_or_gm` is an external character
predicate not present in the sources here; the design describes plain
players as "non-GM, non-staff", so the predicate holds exactly when the
character is staff or a GM. -/
def check_staff_or_gm (c : Character) : Bool :=
  c.is_staff || c.is_gm

/-- The three audience flags of a `Notifier`, each possibly absent from the
`to_flags` keyword dictionary (`dict.get(..., False)` treats an absent flag
as false). -/
structure ToFlags where
  to_player : Option Bool := none
  to_gm : Option Bool := none
  to_staff : Option Bool := none

/-- The mutable state of a `Notifier`: caller, flags, the three category
sets and the receiver set, all empty at construction. -/
structure NotifierState where
  caller : Character
  to_flags : ToFlags
  player_set : Finset Character := ∅
  gm_set : Finset Character := ∅
  staff_set : Finset Character := ∅
  receiver_set : Finset Character := ∅

/-- Models `Notifier._filter_players`: all non-GM, non-staff characters of
the current receiver set. -/
def filter_players (s : NotifierState) : NotifierState :=
  { s with player_set := s.receiver_set.filter (fun c => ¬ check_staff_or_gm c) }

/-- Models `Notifier._filter_gms`: all player GMs of the current receiver
set. -/
def filter_gms (s : NotifierState) : NotifierState :=
  { s with gm_set := s.receiver_set.filter (fun c => c.is_gm) }

/-- Models `Notifier._filter_staff`: all staff of the current receiver
set. -/
def filter_staff (s : NotifierState) : NotifierState :=
  { s with staff_set := s.receiver_set.filter (fun c => c.is_staff) }

/-- Models `Notifier._filter_receivers`: each category filter runs only
when its flag is set (absent flags read as false), then the receiver set
becomes the union of the three category sets. -/
def filter_receivers (s : NotifierState) : NotifierState :=
  let s1 := if s.to_flags.to_player.getD false then filter_players s else s
  let s2 := if s1.to_flags.to_gm.getD false then filter_gms s1 else s1
  let s3 := if s2.to_flags.to_staff.getD false then filter_staff s2 else s2
  { s3 with receiver_set := s3.player_set ∪ s3.gm_set ∪ s3.staff_set }

/-- Models `Notifier.generate`: `_source_characters` fills the receiver set
from the strategy-specific pool (passed here as `source`), then
`_filter_receivers` runs. -/
def generate (source : Finset Character) (s : NotifierState) : NotifierState :=
  filter_receivers { s with receiver_set := source }

/-- Models Python `str.lower` on names (character-wise lowercasing). -/
def lowerName (s : String) : String := ⟨s.data.map Char.toLower⟩

/-- The names a roll caller recognises as itself in
`SimpleRoll.announce_to_players`: "me", "self", the character's string form
and its key, lowercased. -/
def selfNames (c : Character) : List String :=
  ["me", "self", lowerName c.name, lowerName c.key]

/-- The staff presentation marker applied in `announce_to_players`
(`"|c%s|n" % ob.name`). -/
def markStaff (n : String) : String := "|c" ++ n ++ "|n"

/-- Models the `receiver_list` comprehension of `announce_to_players`: the
deduplicated receivers whose lowercased name is not a self name. -/
def receiverListOf (c : Character) (receivers : List Character) : List Character :=
  receivers.dedup.filter (fun ob => ¬ (selfNames c).contains (lowerName ob.name))

/-- Models `staff_receiver_names`: marked names of the deduplicated
receivers that pass the Builders permission check. -/
def staffReceiverNames (receivers : List Character) : List String :=
  (receivers.dedup.filter (fun ob => ob.is_staff)).map (fun ob => markStaff ob.name)

/-- Models `pc_receiver_names`: names of the deduplicated receivers that do
not pass the Builders permission check. -/
def pcReceiverNames (receivers : List Character) : List String :=
  (receivers.dedup.filter (fun ob => ¬ ob.is_staff)).map (fun ob => ob.name)

/-- Models `all_receiver_names`: sorted plain-player names, then sorted
marked staff names. -/
def allReceiverNames (receivers : List Character) : List String :=
  sortStrings (pcReceiverNames receivers) ++ sortStrings (staffReceiverNames receivers)

/-- Models the `receiver_suffix` computation of `announce_to_players`: the
self-only form when nobody but the caller would see the roll, otherwise the
joined combined name list. -/
def receiverSuffix (c : Character) (receivers : List Character) : String :=
  if (receiverListOf c receivers).length = 0 then "(Shared with: self-only)"
  else "(Shared with: " ++ String.intercalate ", " (allReceiverNames receivers) ++ ")"

/-- Characterisation of `__lt__` on rolls: either the result objects agree
and the values are separated by more than the caller's threshold, or both
result objects are present, distinct, and ordered by band ordinal. -/
theorem rollLt_true (a b : SimpleRoll) : rollLt a b = true ↔
    (a.roll_result_object = b.roll_result_object ∧
      ∃ va vb, a.result_value = some va ∧ b.result_value = some vb ∧
        va + a.tie_threshold < vb) ∨
    (∃ ra rb, a.roll_result_object = some ra ∧ b.roll_result_object = some rb ∧
      ra ≠ rb ∧ ra.value < rb.value) := by
  rcases hra : a.roll_result_object with _ | ra <;>
    rcases hrb : b.roll_result_object with _ | rb <;>
      rcases hva : a.result_value with _ | va <;>
        rcases hvb : b.result_value with _ | vb <;>
          simp [rollLt, hra, hrb, hva, hvb]
  by_cases hr : ra = rb <;> simp [hr]

/-- Characterisation of `__eq__` on rolls: same result object and result
values present and within the caller's (inclusive) tie threshold. -/
theorem rollEq_true (a b : SimpleRoll) : rollEq a b = true ↔
    a.roll_result_object = b.roll_result_object ∧
      ∃ va vb, a.result_value = some va ∧ b.result_value = some vb ∧
        |va - vb| ≤ a.tie_threshold := by
  rcases hva : a.result_value with _ | va <;>
    rcases hvb : b.result_value with _ | vb <;>
      simp [rollEq, hva, hvb, and_comm]

/-- The roll order is transitive; only the middle roll's threshold needs to
be non-negative. -/
theorem rollLt_trans {a b c : SimpleRoll} (hb : 0 ≤ b.tie_threshold)
    (hab : rollLt a b = true) (hbc : rollLt b c = true) : rollLt a c = true := by
  rw [rollLt_true] at hab hbc ⊢
  rcases hab with ⟨hoab, va, vb, hva, hvb, hlt⟩ | ⟨ra, rb, hra, hrb, hne, hlt⟩
  · rcases hbc with ⟨hobc, vb', vc, hvb', hvc, hlt'⟩ | ⟨rb', rc, hrb', hrc, hne', hlt'⟩
    · rw [hvb'] at hvb
      cases Option.some.inj hvb
      exact Or.inl ⟨hoab.trans hobc, va, vc, hva, hvc, by omega⟩
    · refine Or.inr ⟨rb', rc, ?_, hrc, hne', hlt'⟩
      rw [hoab]; exact hrb'
  · rcases hbc with ⟨hobc, vb', vc, hvb', hvc, hlt'⟩ | ⟨rb', rc, hrb', hrc, hne', hlt'⟩
    · refine Or.inr ⟨ra, rb, hra, ?_, hne, hlt⟩
      rw [← hobc]; exact hrb
    · rw [hrb'] at hrb
      cases Option.some.inj hrb
      refine Or.inr ⟨ra, rc, hra, hrc, ?_, hlt.trans hlt'⟩
      intro hcontra
      rw [hcontra] at hlt
      exact absurd (hlt.trans hlt') (lt_irrefl _)

/-- The roll order is asymmetric when both thresholds are non-negative. -/
theorem rollLt_asymm {a b : SimpleRoll} (ha : 0 ≤ a.tie_threshold)
    (hb : 0 ≤ b.tie_threshold) (hab : rollLt a b = true) : rollLt b a = false := by
  rw [← Bool.not_eq_true, rollLt_true]
  rw [rollLt_true] at hab
  rcases hab with ⟨hoab, va, vb, hva, hvb, hlt⟩ | ⟨ra, rb, hra, hrb, hne, hlt⟩
  · rintro (⟨_, vb', va', hvb', hva', hlt'⟩ | ⟨rb', ra', hrb', hra', hne', _⟩)
    · rw [hva'] at hva; rw [hvb'] at hvb
      cases Option.some.inj hva
      cases Option.some.inj hvb
      omega
    · rw [hoab, hrb'] at hra'
      exact hne' (Option.some.inj hra')
  · rintro (⟨hoba, _⟩ | ⟨rb', ra', hrb', hra', hne', hlt'⟩)
    · rw [hra, hrb] at hoba
      exact hne (Option.some.inj hoba).symm
    · rw [hrb'] at hrb; rw [hra'] at hra
      cases Option.some.inj hrb
      cases Option.some.inj hra
      exact absurd (hlt.trans hlt') (lt_irrefl _)

/-- Inserting with `insertBefore` permutes: the result is the new element
consed onto the old list, up to permutation. -/
theorem insertBefore_perm {α : Type} (p : α → α → Bool) (L : List α) (x : α) :
    List.Perm (insertBefore p L x) (x :: L) := by
  induction L with
  | nil => rfl
  | cons y ys ih =>
    unfold insertBefore
    by_cases h : p y x
    · rw [if_pos h]
    · rw [if_neg h]
      exact (ih.cons y).trans (List.Perm.swap x y ys)

/-- Folding `insertBefore` over a list permutes the accumulator followed by
the list. -/
theorem foldl_insertBefore_perm {α : Type} (p : α → α → Bool) (L acc : List α) :
    List.Perm (L.foldl (insertBefore p) acc) (acc ++ L) := by
  induction L generalizing acc with
  | nil => simp
  | cons x xs ih =>
    have h1 : (x :: xs).foldl (insertBefore p) acc
        = xs.foldl (insertBefore p) (insertBefore p acc x) := rfl
    rw [h1]
    refine ((ih (insertBefore p acc x)).trans ?_)
    refine ((insertBefore_perm p acc x).append_right xs).trans ?_
    exact List.perm_middle.symm

/-- The stable sort is a permutation of its input. -/
theorem stableSortBy_perm {α : Type} (p : α → α → Bool) (L : List α) :
    List.Perm (stableSortBy p L) L := by
  simpa using foldl_insertBefore_perm p L []

/-- Inserting an element no listed element should precede appends it at
the end. -/
theorem insertBefore_eq_append {α : Type} (p : α → α → Bool) (L : List α) (x : α)
    (h : ∀ y ∈ L, p y x = false) : insertBefore p L x = L ++ [x] := by
  induction L with
  | nil => rfl
  | cons y ys ih =>
    have hy : p y x = false := h y (List.mem_cons_self y ys)
    unfold insertBefore
    rw [if_neg (by rw [hy]; exact Bool.false_ne_true)]
    rw [ih (fun z hz => h z (List.mem_cons_of_mem y hz))]
    rfl

/-- `insertBefore` keeps the output free of sorted-order violations,
provided the comparison is asymmetric and transitive on the elements
involved. -/
theorem insertBefore_pairwise {α : Type} (p : α → α → Bool) (x : α) (L : List α)
    (hasym : ∀ a ∈ x :: L, ∀ b ∈ x :: L, p a b = true → p b a = false)
    (htrans : ∀ a ∈ x :: L, ∀ b ∈ x :: L, ∀ c ∈ x :: L,
      p a b = true → p b c = true → p a c = true)
    (hs : List.Pairwise (fun a b => p a b = false) L) :
    List.Pairwise (fun a b => p a b = false) (insertBefore p L x) := by
  induction L with
  | nil => simp [insertBefore]
  | cons y ys ih =>
    rw [List.pairwise_cons] at hs
    obtain ⟨hy, hys⟩ := hs
    unfold insertBefore
    by_cases h : p y x
    · rw [if_pos h]
      refine List.Pairwise.cons ?_ (List.Pairwise.cons hy hys)
      intro z hz
      rcases List.mem_cons.mp hz with hzy | hz'
      · rw [hzy]
        exact hasym y (by simp) x (by simp) h
      · by_contra hpxz
        rw [Bool.not_eq_false] at hpxz
        have hyz : p y z = true :=
          htrans y (by simp) x (by simp) z (by simp [hz']) h hpxz
        rw [hy z hz'] at hyz
        exact Bool.false_ne_true hyz
    · rw [if_neg h]
      have hmem : ∀ a ∈ x :: ys, a ∈ x :: y :: ys := by
        intro a ha
        rcases List.mem_cons.mp ha with ha' | ha' <;> simp [ha']
      refine List.Pairwise.cons ?_
        (ih (fun a ha b hb => hasym a (hmem a ha) b (hmem b hb))
            (fun a ha b hb c hc =>
              htrans a (hmem a ha) b (hmem b hb) c (hmem c hc)) hys)
      intro z hz
      rcases List.mem_cons.mp ((insertBefore_perm p ys x).mem_iff.mp hz) with hzx | hz'
      · rw [hzx]
        rwa [Bool.not_eq_true] at h
      · exact hy z hz'

/-- The full fold keeps the output violation-free, starting from a
violation-free accumulator. -/
theorem foldl_insertBefore_pairwise {α : Type} (p : α → α → Bool) (L : List α) :
    ∀ acc : List α,
    (∀ a ∈ acc ++ L, ∀ b ∈ acc ++ L, p a b = true → p b a = false) →
    (∀ a ∈ acc ++ L, ∀ b ∈ acc ++ L, ∀ c ∈ acc ++ L,
      p a b = true → p b c = true → p a c = true) →
    List.Pairwise (fun a b => p a b = false) acc →
    List.Pairwise (fun a b => p a b = false) (L.foldl (insertBefore p) acc) := by
  induction L with
  | nil => intro acc _ _ hacc; simpa using hacc
  | cons x xs ih =>
    intro acc hasym htrans hacc
    have hmem1 : ∀ a ∈ x :: acc, a ∈ acc ++ x :: xs := by
      intro a ha
      rcases List.mem_cons.mp ha with ha' | ha' <;> simp [ha']
    have hstep : List.Pairwise (fun a b => p a b = false) (insertBefore p acc x) :=
      insertBefore_pairwise p x acc
        (fun a ha b hb => hasym a (hmem1 a ha) b (hmem1 b hb))
        (fun a ha b hb c hc =>
          htrans a (hmem1 a ha) b (hmem1 b hb) c (hmem1 c hc)) hacc
    have hmem2 : ∀ a ∈ insertBefore p acc x ++ xs, a ∈ acc ++ x :: xs := by
      intro a ha
      rcases List.mem_append.mp ha with ha' | ha'
      · rcases List.mem_cons.mp ((insertBefore_perm p acc x).mem_iff.mp ha') with h' | h'
        · simp [h']
        · simp [h']
      · simp [ha']
    have h1 : (x :: xs).foldl (insertBefore p) acc
        = xs.foldl (insertBefore p) (insertBefore p acc x) := rfl
    rw [h1]
    exact ih (insertBefore p acc x)
      (fun a ha b hb => hasym a (hmem2 a ha) b (hmem2 b hb))
      (fun a ha b hb c hc =>
        htrans a (hmem2 a ha) b (hmem2 b hb) c (hmem2 c hc)) hstep

/-- The stable sort produces a violation-free list whenever the comparison
is asymmetric and transitive on the input's elements. -/
theorem stableSortBy_pairwise {α : Type} (p : α → α → Bool) (L : List α)
    (hasym : ∀ a ∈ L, ∀ b ∈ L, p a b = true → p b a = false)
    (htrans : ∀ a ∈ L, ∀ b ∈ L, ∀ c ∈ L, p a b = true → p b c = true → p a c = true) :
    List.Pairwise (fun a b => p a b = false) (stableSortBy p L) := by
  unfold stableSortBy
  exact foldl_insertBefore_pairwise p L []
    (by simpa using hasym) (by simpa using htrans) List.Pairwise.nil

/-- A violation-free list is a fixed point of the fold. -/
theorem foldl_insertBefore_fix {α : Type} (p : α → α → Bool) (L : List α) :
    ∀ acc : List α, List.Pairwise (fun a b => p a b = false) (acc ++ L) →
    L.foldl (insertBefore p) acc = acc ++ L := by
  induction L with
  | nil => intro acc _; simp
  | cons x xs ih =>
    intro acc h
    have hx : ∀ y ∈ acc, p y x = false := by
      intro y hy
      exact (List.pairwise_append.mp h).2.2 y hy x (by simp)
    have h1 : (x :: xs).foldl (insertBefore p) acc
        = xs.foldl (insertBefore p) (insertBefore p acc x) := rfl
    have h2 : (acc ++ [x]) ++ xs = acc ++ x :: xs := by simp
    rw [h1, insertBefore_eq_append p acc x hx, ih (acc ++ [x]) (by rwa [h2]), h2]

/-- A violation-free list is a fixed point of the stable sort. -/
theorem stableSortBy_fix {α : Type} (p : α → α → Bool) (L : List α)
    (h : List.Pairwise (fun a b => p a b = false) L) : stableSortBy p L = L := by
  unfold stableSortBy
  simpa using foldl_insertBefore_fix p L [] (by simpa using h)

/-- Sample result band used by concrete witnesses. -/
def bandA : RollResult := ⟨"ok", 1, true⟩

/-- A second, higher sample result band. -/
def bandB : RollResult := ⟨"great", 2, true⟩

/-- Sample character for concrete witnesses. -/
def charA : Character := ⟨1, "alice", "alice", false, false⟩

/-- A second sample character. -/
def charB : Character := ⟨2, "bob", "bob", false, false⟩

/-- A resolved sample roll: band `bandA`, value 50, default threshold. -/
def rollW1 : SimpleRoll :=
  { character := charA, result_value := some 50, roll_result_object := some bandA }

/-- A resolved sample roll: band `bandA`, value 54, default threshold. -/
def rollW2 : SimpleRoll :=
  { character := charB, result_value := some 54, roll_result_object := some bandA }

/-- C1: for resolved rolls in the same result band, equality holds exactly
when the result values differ by at most the caller's tie threshold
(default 5), and strict order holds exactly when the left value plus the
threshold is below the right value; for different bands, equality fails
and order is decided by band ordinal alone, regardless of result values. -/
theorem c1_comparison_tie_window (a b : SimpleRoll) (va vb : Int) (ra rb : RollResult)
    (hva : a.result_value = some va) (hvb : b.result_value = some vb)
    (hra : a.roll_result_object = some ra) (hrb : b.roll_result_object = some rb) :
    ((ra = rb →
        ((rollEq a b = true ↔ |va - vb| ≤ a.tie_threshold) ∧
         (rollLt a b = true ↔ va + a.tie_threshold < vb))) ∧
     (ra ≠ rb →
        rollEq a b = false ∧ (rollLt a b = true ↔ ra.value < rb.value))) ∧
    TIE_THRESHOLD = 5 := by
  refine ⟨⟨?_, ?_⟩, rfl⟩
  · intro hband
    constructor
    · rw [rollEq_true]
      simp [hva, hvb, hra, hrb, hband]
    · rw [rollLt_true]
      simp [hva, hvb, hra, hrb, hband]
  · intro hband
    constructor
    · rw [← Bool.not_eq_true, rollEq_true]
      rintro ⟨hoab, _⟩
      rw [hra, hrb] at hoab
      exact hband (Option.some.inj hoab)
    · rw [rollLt_true]
      simp [hva, hvb, hra, hrb, hband]

/-- Witness for C1 at two concrete rolls in the same band, values 50 and
54, default threshold 5. -/
theorem c1_comparison_tie_window_witness :
    rollW1.result_value = some 50 ∧ rollW2.result_value = some 54 ∧
    rollW1.roll_result_object = some bandA ∧ rollW2.roll_result_object = some bandA ∧
    (((bandA = bandA →
        ((rollEq rollW1 rollW2 = true ↔ |(50 : Int) - 54| ≤ rollW1.tie_threshold) ∧
         (rollLt rollW1 rollW2 = true ↔ (50 : Int) + rollW1.tie_threshold < 54))) ∧
      (bandA ≠ bandA →
        rollEq rollW1 rollW2 = false ∧
        (rollLt rollW1 rollW2 = true ↔ bandA.value < bandA.value))) ∧
     TIE_THRESHOLD = 5) :=
  ⟨rfl, rfl, rfl, rfl,
    c1_comparison_tie_window rollW1 rollW2 50 54 bandA bandA rfl rfl rfl rfl⟩

/-- C10: for resolved rolls in the same band whose values differ by exactly
the tie threshold, `__eq__` reports a tie while `check_rolls_tied` (called
with that same threshold) does not; on every other resolved pair the two
tests agree. -/
theorem c10_tie_tests_boundary (a b : SimpleRoll) (va vb : Int)
    (hva : a.result_value = some va) (hvb : b.result_value = some vb) :
    ((a.roll_result_object = b.roll_result_object ∧ |va - vb| = a.tie_threshold) →
       rollEq a b = true ∧ check_rolls_tied a b a.tie_threshold = false) ∧
    ((a.roll_result_object ≠ b.roll_result_object ∨ |va - vb| ≠ a.tie_threshold) →
       rollEq a b = check_rolls_tied a b a.tie_threshold) := by
  constructor
  · rintro ⟨hband, habs⟩
    constructor
    · rw [rollEq_true]
      exact ⟨hband, va, vb, hva, hvb, le_of_eq habs⟩
    · unfold check_rolls_tied
      rw [if_neg (by simp [hband]), hva, hvb]
      simp [habs]
  · intro hcase
    unfold rollEq check_rolls_tied
    rw [hva, hvb]
    by_cases hband : a.roll_result_object = b.roll_result_object
    · rw [if_neg (by simp [hband])]
      rcases hcase with hcontra | habs
      · exact absurd hband hcontra
      · simp only [hband, decide_True, Bool.true_and]
        have : (|va - vb| ≤ a.tie_threshold) ↔ (|va - vb| < a.tie_threshold) := by
          constructor
          · intro hle
            exact lt_of_le_of_ne hle habs
          · exact le_of_lt
        by_cases hle : |va - vb| ≤ a.tie_threshold
        · simp [hle, this.mp hle]
        · have h2 : ¬ |va - vb| < a.tie_threshold := fun hlt => hle (le_of_lt hlt)
          simp [hle, h2]
    · rw [if_pos (by simp [hband])]
      simp [hband]

/-- A resolved sample roll: band `bandA`, value 55 (exactly the default
threshold away from `rollW1`). -/
def rollW3 : SimpleRoll :=
  { character := charB, result_value := some 55, roll_result_object := some bandA }

/-- Witness for C10 at the boundary pair with values 50 and 55. -/
theorem c10_tie_tests_boundary_witness :
    rollW1.result_value = some 50 ∧ rollW3.result_value = some 55 ∧
    (((rollW1.roll_result_object = rollW3.roll_result_object ∧
         |(50 : Int) - 55| = rollW1.tie_threshold) →
        rollEq rollW1 rollW3 = true ∧
        check_rolls_tied rollW1 rollW3 rollW1.tie_threshold = false) ∧
     ((rollW1.roll_result_object ≠ rollW3.roll_result_object ∨
         |(50 : Int) - 55| ≠ rollW1.tie_threshold) →
        rollEq rollW1 rollW3 = check_rolls_tied rollW1 rollW3 rollW1.tie_threshold)) :=
  ⟨rfl, rfl, c10_tie_tests_boundary rollW1 rollW3 50 55 rfl rfl⟩

/-- C9: sorting a list of resolved rolls (with the non-negative tie
thresholds the engine configures) with the roll comparison and sorting the
result again yields the same order. -/
theorem c9_sort_idempotent (rolls : List SimpleRoll)
    (_hres : ∀ r ∈ rolls, r.result_value.isSome ∧ r.roll_result_object.isSome)
    (hthr : ∀ r ∈ rolls, 0 ≤ r.tie_threshold) :
    sortDesc (sortDesc rolls) = sortDesc rolls := by
  unfold sortDesc
  apply stableSortBy_fix
  apply stableSortBy_pairwise
  · intro a ha b hb hab
    exact rollLt_asymm (hthr a ha) (hthr b hb) hab
  · intro a ha b hb c hc hab hbc
    exact rollLt_trans (hthr b hb) hab hbc

/-- Witness for C9 at a concrete three-element list of resolved rolls. -/
theorem c9_sort_idempotent_witness :
    (∀ r ∈ [rollW1, rollW2, rollW3], r.result_value.isSome ∧ r.roll_result_object.isSome) ∧
    (∀ r ∈ [rollW1, rollW2, rollW3], 0 ≤ r.tie_threshold) ∧
    sortDesc (sortDesc [rollW1, rollW2, rollW3]) = sortDesc [rollW1, rollW2, rollW3] :=
  ⟨by decide, by decide,
    c9_sort_idempotent [rollW1, rollW2, rollW3] (by decide) (by decide)⟩

/-- Membership of the element reported by `getLast?`. -/
theorem mem_of_getLast_eq {α : Type} {l : List α} {x : α} (h : l.getLast? = some x) :
    x ∈ l := by
  induction l with
  | nil => cases h
  | cons y ys ih =>
    cases ys with
    | nil =>
      rw [List.getLast?_singleton] at h
      rw [Option.some.inj h]
      exact List.mem_singleton_self x
    | cons z zs =>
      rw [List.getLast?_cons_cons] at h
      exact List.mem_cons_of_mem y (ih h)

/-- A group is anchored when it is non-empty and every later member
compares equal (under `__eq__`) to its first member. -/
def Anchored (g : List SimpleRoll) : Prop :=
  ∃ a t, g = a :: t ∧ ∀ m ∈ t, rollEq a m = true

/-- One `rankStep` preserves anchoring of all groups. -/
theorem rankStep_anchored (acc : List (List SimpleRoll)) (r : SimpleRoll)
    (hacc : ∀ g ∈ acc, Anchored g) : ∀ g ∈ rankStep acc r, Anchored g := by
  intro g hg
  unfold rankStep at hg
  rcases hlast : acc.getLast? with _ | last
  · rw [hlast] at hg
    simp only [Option.getD_none] at hg
    rcases List.mem_append.mp hg with hgacc | hgnew
    · exact hacc g hgacc
    · rw [List.mem_singleton.mp hgnew]
      exact ⟨r, [], rfl, by intro m hm; cases hm⟩
  · rw [hlast] at hg
    have hlastmem : last ∈ acc := mem_of_getLast_eq hlast
    have hlanch : Anchored last := hacc last hlastmem
    obtain ⟨a, t, hat, hanch⟩ := hlanch
    by_cases htie : (match last.head? with
        | some first => rollEq first r
        | none => false) = true
    · rw [if_pos htie] at hg
      rcases List.mem_append.mp hg with hgdrop | hgnew
      · exact hacc g (List.mem_of_mem_dropLast hgdrop)
      · rw [List.mem_singleton.mp hgnew]
        simp only [Option.getD_some]
        refine ⟨a, t ++ [r], by rw [hat]; rfl, ?_⟩
        intro m hm
        rcases List.mem_append.mp hm with hmt | hmr
        · exact hanch m hmt
        · rw [List.mem_singleton.mp hmr]
          rw [hat] at htie
          simpa using htie
    · rw [if_neg htie] at hg
      rcases List.mem_append.mp hg with hgacc | hgnew
      · exact hacc g hgacc
      · rw [List.mem_singleton.mp hgnew]
        exact ⟨r, [], rfl, by intro m hm; cases hm⟩

/-- Every group produced by the fold over `rankStep` is anchored. -/
theorem foldl_rankStep_anchored (L : List SimpleRoll) :
    ∀ acc : List (List SimpleRoll), (∀ g ∈ acc, Anchored g) →
    ∀ g ∈ L.foldl rankStep acc, Anchored g := by
  induction L with
  | nil => intro acc hacc; exact hacc
  | cons r rs ih =>
    intro acc hacc
    exact ih (rankStep acc r) (rankStep_anchored acc r hacc)

/-- Contest sample roll with value 100 in `bandA`. -/
def contA : SimpleRoll :=
  { character := charA, result_value := some 100, roll_result_object := some bandA }

/-- Contest sample roll with value 95 in `bandA` (within 5 of `contA`). -/
def contB : SimpleRoll :=
  { character := charB, result_value := some 95, roll_result_object := some bandA }

/-- Contest sample roll with value 105 in `bandA` (within 5 of `contA` but
10 away from `contB`). -/
def contC : SimpleRoll :=
  { character := ⟨3, "eve", "eve", false, false⟩,
    result_value := some 105, roll_result_object := some bandA }

/-- C3: the contest ranker (sort descending, then group) always produces
groups in which every member ties with the group's first member — the
anchor — rather than with its predecessor; concretely, rolls A, B, C with
A tied to B and A tied to C land in one group even though B and C are not
tied to each other. -/
theorem c3_anchored_tie_groups :
    (∀ rolls : List SimpleRoll, ∀ g ∈ rollResultsRanked rolls,
       ∃ a t, g = a :: t ∧ ∀ m ∈ t, rollEq a m = true) ∧
    (rollEq contA contB = true ∧ rollEq contA contC = true ∧
     rollEq contB contC = false ∧
     rollResultsRanked [contA, contB, contC] = [[contA, contC, contB]]) := by
  constructor
  · intro rolls g hg
    unfold rollResultsRanked rank_results at hg
    exact foldl_rankStep_anchored (sortDesc rolls) [] (by intro g' hg'; cases hg') g hg
  · exact ⟨by decide, by decide, by decide, by decide⟩

/-- Witness for C3's quantified part at the concrete contest list. -/
theorem c3_anchored_tie_groups_witness :
    ([contA, contC, contB] ∈ rollResultsRanked [contA, contB, contC]) ∧
    (∃ a t, [contA, contC, contB] = a :: t ∧ ∀ m ∈ t, rollEq a m = true) :=
  ⟨by decide,
    c3_anchored_tie_groups.1 [contA, contB, contC] [contA, contC, contB] (by decide)⟩

/-- A successful `execute` resolves the result fields and preserves the
construction-time fields. -/
theorem execute_resolved {ctx : CheckContext} {e : Nat} {r r' : SimpleRoll}
    (h : execute ctx e r = some r') :
    (∃ v, r'.result_value = some v) ∧ (∃ b, r'.roll_result_object = some b) ∧
    r'.tie_threshold = r.tie_threshold ∧ r'.character = r.character := by
  unfold execute at h
  rcases hr : r.rating with _ | rt
  · rw [hr] at h; cases h
  · rw [hr] at h
    cases Option.some.inj h
    exact ⟨⟨_, rfl⟩, ⟨_, rfl⟩, rfl, rfl⟩

/-- Sorting a two-element list descending swaps exactly when the first
element compares below the second. -/
theorem sortDesc_pair (r1 r2 : SimpleRoll) :
    sortDesc [r1, r2] = if rollLt r1 r2 then [r2, r1] else [r1, r2] := by
  unfold sortDesc stableSortBy
  by_cases h : rollLt r1 r2 <;> simp [h, insertBefore]

/-- Two resolved unequal rolls with a shared non-negative threshold and
ordinal-distinguishable bands are strictly comparable one way or the
other. -/
theorem rollLt_total_of_ne {r1 r2 : SimpleRoll}
    (hv1 : ∃ v, r1.result_value = some v) (hv2 : ∃ v, r2.result_value = some v)
    (hb1 : ∃ b, r1.roll_result_object = some b)
    (hb2 : ∃ b, r2.roll_result_object = some b)
    (hthr : r1.tie_threshold = r2.tie_threshold)
    (hbands : ∀ ra rb, r1.roll_result_object = some ra →
      r2.roll_result_object = some rb → ra ≠ rb → ra.value ≠ rb.value)
    (hne : rollEq r1 r2 = false) :
    rollLt r1 r2 = true ∨ rollLt r2 r1 = true := by
  obtain ⟨v1, hv1⟩ := hv1
  obtain ⟨v2, hv2⟩ := hv2
  obtain ⟨b1, hb1⟩ := hb1
  obtain ⟨b2, hb2⟩ := hb2
  rw [← Bool.not_eq_true, rollEq_true] at hne
  by_cases hband : b1 = b2
  · have hfar : ¬ |v1 - v2| ≤ r1.tie_threshold := by
      intro habs
      exact hne ⟨by rw [hb1, hb2, hband], v1, v2, hv1, hv2, habs⟩
    rw [not_le] at hfar
    have hcases : v1 + r1.tie_threshold < v2 ∨ v2 + r1.tie_threshold < v1 := by
      rcases le_or_lt v1 v2 with hle | hlt
      · left
        rw [abs_of_nonpos (by linarith)] at hfar
        linarith
      · right
        rw [abs_of_pos (by linarith)] at hfar
        linarith
    rcases hcases with hlt | hlt
    · left
      rw [rollLt_true]
      exact Or.inl ⟨by rw [hb1, hb2, hband], v1, v2, hv1, hv2, hlt⟩
    · right
      rw [rollLt_true]
      refine Or.inl ⟨by rw [hb1, hb2, hband], v2, v1, hv2, hv1, ?_⟩
      rw [← hthr]
      exact hlt
  · have hvaldiff : b1.value ≠ b2.value :=
      hbands b1 b2 hb1 hb2 hband
    rcases lt_or_gt_of_ne hvaldiff with hlt | hgt
    · left
      rw [rollLt_true]
      exact Or.inr ⟨b1, b2, hb1, hb2, hband, hlt⟩
    · right
      rw [rollLt_true]
      exact Or.inr ⟨b2, b1, hb2, hb1, fun hc => hband hc.symm, hgt⟩

/-- C4: the opposed resolver executes both rolls; it announces a tie
exactly when the resolved rolls compare equal, and otherwise the actor of
the strictly higher-ranked roll is the winner. -/
theorem c4_opposed_check (ctx : CheckContext) (e1 e2 : Nat) (o : OpposingRolls)
    (r1 r2 : SimpleRoll)
    (h1 : execute ctx e1 o.roll1 = some r1)
    (h2 : execute ctx e2 o.roll2 = some r2)
    (hthr : r1.tie_threshold = r2.tie_threshold)
    (hthr0 : 0 ≤ r1.tie_threshold)
    (hbands : ∀ ra rb, r1.roll_result_object = some ra →
      r2.roll_result_object = some rb → ra ≠ rb → ra.value ≠ rb.value) :
    ∃ v : Verdict, announce ctx e1 e2 o = some (r1, r2, v) ∧
      (rollEq r1 r2 = true → v = Verdict.tie) ∧
      (rollEq r1 r2 = false →
        (rollLt r1 r2 = true ∧ v = Verdict.winner r2.character) ∨
        (rollLt r2 r1 = true ∧ v = Verdict.winner r1.character)) := by
  obtain ⟨hv1, hb1, hthr1, -⟩ := execute_resolved h1
  obtain ⟨hv2, hb2, hthr2, -⟩ := execute_resolved h2
  refine ⟨if rollEq r1 r2 then Verdict.tie
    else Verdict.winner (((sortDesc [r1, r2]).head?.getD r1).character), ?_, ?_, ?_⟩
  · simp [announce, h1, h2]
  · intro heq
    rw [heq]
    rfl
  · intro hne
    rw [hne]
    simp only [Bool.false_eq_true, if_false]
    rcases rollLt_total_of_ne hv1 hv2 hb1 hb2 hthr hbands hne with hlt | hlt
    · left
      refine ⟨hlt, ?_⟩
      rw [sortDesc_pair, if_pos hlt]
      rfl
    · right
      refine ⟨hlt, ?_⟩
      have hnlt : rollLt r1 r2 = false :=
        rollLt_asymm (by rw [← hthr]; exact hthr0) hthr0 hlt
      rw [sortDesc_pair, if_neg (by rw [hnlt]; exact Bool.false_ne_true)]
      rfl

/-- Concrete lookup context for witnesses: identity weight tables, no
modifier handler, no crit classification, and a classifier putting values
below 50 in `bandA` and the rest in `bandB`. -/
def ctxW : CheckContext :=
  { get_stat_value := fun _ _ => 10
    get_skill_value := fun _ _ => 5
    get_weighted_value_for_stat := fun v _ => v
    get_weighted_value_for_skill := fun v => v
    get_weighted_value_for_knack := fun v => v
    mods := fun _ => none
    get_roll_type := fun _ => none
    get_instance_for_roll := fun v _ => if v < 50 then bandA else bandB
    render := fun _ _ _ _ => "result" }

/-- Concrete opposed check between `charA` and `charB`, both rolling a
stat at an easy rating. -/
def opW : OpposingRolls :=
  ⟨{ character := charA, stat := some "strength", rating := some ⟨"easy", 1⟩ },
   { character := charB, stat := some "strength", rating := some ⟨"easy", 1⟩ },
   charA, charB⟩

/-- The first opposed roll resolved with entropy 0 (raw draw 1). -/
def oppR1 : SimpleRoll := (execute ctxW 0 opW.roll1).getD opW.roll1

/-- The second opposed roll resolved with entropy 80 (raw draw 81). -/
def oppR2 : SimpleRoll := (execute ctxW 80 opW.roll2).getD opW.roll2

/-- Witness for C4 at the concrete opposed check: the rolls land in
different bands and the higher band's actor wins. -/
theorem c4_opposed_check_witness :
    execute ctxW 0 opW.roll1 = some oppR1 ∧
    execute ctxW 80 opW.roll2 = some oppR2 ∧
    oppR1.tie_threshold = oppR2.tie_threshold ∧ 0 ≤ oppR1.tie_threshold ∧
    (∃ v : Verdict, announce ctxW 0 80 opW = some (oppR1, oppR2, v) ∧
      (rollEq oppR1 oppR2 = true → v = Verdict.tie) ∧
      (rollEq oppR1 oppR2 = false →
        (rollLt oppR1 oppR2 = true ∧ v = Verdict.winner oppR2.character) ∨
        (rollLt oppR2 oppR1 = true ∧ v = Verdict.winner oppR1.character))) := by
  refine ⟨rfl, rfl, rfl, by decide, ?_⟩
  refine c4_opposed_check ctxW 0 80 opW oppR1 oppR2 rfl rfl rfl (by decide) ?_
  intro ra rb hra hrb _
  have hra' : some bandA = some ra := hra
  have hrb' : some bandB = some rb := hrb
  rw [← Option.some.inj hra', ← Option.some.inj hrb']
  decide

/-- C5: after `generate`, the receiver union is exactly the union of the
outputs of the filters whose flags are set (absent flags read as false);
with no flags set the union is empty no matter what the source strategy
put in the pool. -/
theorem c5_gated_filters (caller : Character) (flags : ToFlags)
    (source : Finset Character) :
    ((generate source { caller := caller, to_flags := flags }).receiver_set =
      (if flags.to_player.getD false then
        source.filter (fun c => ¬ check_staff_or_gm c) else ∅) ∪
      (if flags.to_gm.getD false then source.filter (fun c => c.is_gm) else ∅) ∪
      (if flags.to_staff.getD false then source.filter (fun c => c.is_staff) else ∅)) ∧
    (flags.to_player.getD false = false → flags.to_gm.getD false = false →
      flags.to_staff.getD false = false →
      (generate source { caller := caller, to_flags := flags }).receiver_set = ∅) := by
  constructor
  · by_cases hp : flags.to_player.getD false <;>
      by_cases hg : flags.to_gm.getD false <;>
        by_cases hs : flags.to_staff.getD false <;>
          simp [generate, filter_receivers, filter_players, filter_gms, filter_staff,
            hp, hg, hs]
  · intro hp hg hs
    simp [generate, filter_receivers, filter_players, filter_gms, filter_staff,
      hp, hg, hs]

/-- Witness for C5's no-flag conjunct: all three flags absent, a non-empty
pool, empty receiver union. -/
theorem c5_gated_filters_witness :
    (({} : ToFlags).to_player.getD false = false) ∧
    (({} : ToFlags).to_gm.getD false = false) ∧
    (({} : ToFlags).to_staff.getD false = false) ∧
    (generate {charA, charB} { caller := charA, to_flags := {} }).receiver_set = ∅ :=
  ⟨rfl, rfl, rfl,
    (c5_gated_filters charA {} {charA, charB}).2 rfl rfl rfl⟩

/-- A character flagged both GM and staff. -/
def charBoth : Character := ⟨9, "gwen", "gwen", true, true⟩

/-- Notifier state whose flags request both GMs and staff. -/
def gmStaffState : NotifierState :=
  { caller := charA, to_flags := { to_gm := some true, to_staff := some true } }

/-- Counterexample to C6 as stated: with a character flagged both GM and
staff in the pool and both corresponding flags set, the GM set and the
staff set both contain that character, so the three sets are not pairwise
disjoint. -/
theorem c6_disjointness_counterexample :
    charBoth ∈ (generate {charBoth} gmStaffState).gm_set ∧
    charBoth ∈ (generate {charBoth} gmStaffState).staff_set ∧
    ¬ Disjoint (generate {charBoth} gmStaffState).gm_set
        (generate {charBoth} gmStaffState).staff_set := by
  refine ⟨by decide, by decide, ?_⟩
  intro hd
  exact absurd (by decide : charBoth ∈ (generate {charBoth} gmStaffState).staff_set)
    (Finset.disjoint_left.mp hd (by decide))

/-- C6 (amended): the plain-player set is disjoint from the GM set and
from the staff set for every pool and flag combination; the GM and staff
sets themselves may overlap. -/
theorem c6_player_set_disjoint (caller : Character) (flags : ToFlags)
    (source : Finset Character) :
    Disjoint (generate source { caller := caller, to_flags := flags }).player_set
      (generate source { caller := caller, to_flags := flags }).gm_set ∧
    Disjoint (generate source { caller := caller, to_flags := flags }).player_set
      (generate source { caller := caller, to_flags := flags }).staff_set := by
  constructor <;>
    (rw [Finset.disjoint_left]
     by_cases hp : flags.to_player.getD false <;>
       by_cases hg : flags.to_gm.getD false <;>
         by_cases hs : flags.to_staff.getD false <;>
           simp [generate, filter_receivers, filter_players, filter_gms, filter_staff,
             hp, hg, hs, check_staff_or_gm] <;>
             (intro a ha hcontra
              simp_all))

/-- C7: a successful execution resolves the result value to the raw draw
plus the weighted stat, skill and knack contributions minus the difficulty
penalty, with the raw draw an integer in [1, 100]. -/
theorem c7_net_formula (ctx : CheckContext) (entropy : Nat) (roll r : SimpleRoll)
    (rt : DifficultyRating) (hrt : roll.rating = some rt)
    (hex : execute ctx entropy roll = some r) :
    ∃ raw : Int, r.raw_roll = some raw ∧ 1 ≤ raw ∧ raw ≤ 100 ∧
      r.result_value = some (raw + get_roll_value_for_stat ctx roll
        + get_roll_value_for_skill ctx roll + get_roll_value_for_knack ctx roll
        - rt.value) := by
  unfold execute at hex
  rw [hrt] at hex
  cases Option.some.inj hex
  refine ⟨randint 1 100 entropy, rfl, ?_, ?_, ?_⟩
  · unfold randint
    have h0 : (0 : Int) ≤ ((entropy % 100 : Nat) : Int) := Int.natCast_nonneg _
    norm_num
    omega
  · unfold randint
    have hlt : entropy % 100 < 100 := Nat.mod_lt entropy (by norm_num)
    have : ((entropy % 100 : Nat) : Int) < 100 := by exact_mod_cast hlt
    norm_num
    omega
  · unfold get_roll_value_for_traits
    ring_nf

/-- Witness for C7 at the concrete opposed-check roll. -/
theorem c7_net_formula_witness :
    opW.roll1.rating = some ⟨"easy", 1⟩ ∧
    execute ctxW 0 opW.roll1 = some oppR1 ∧
    (∃ raw : Int, oppR1.raw_roll = some raw ∧ 1 ≤ raw ∧ raw ≤ 100 ∧
      oppR1.result_value = some (raw + get_roll_value_for_stat ctxW opW.roll1
        + get_roll_value_for_skill ctxW opW.roll1
        + get_roll_value_for_knack ctxW opW.roll1 - (1 : Int))) :=
  ⟨rfl, rfl, c7_net_formula ctxW 0 opW.roll1 oppR1 ⟨"easy", 1⟩ rfl rfl⟩

/-- Unresolved roll configuration used to probe re-execution. -/
def c2Roll : SimpleRoll :=
  { character := charA, stat := some "strength", rating := some ⟨"easy", 1⟩ }

/-- The probe roll after a first execution with entropy 29 (raw draw 30). -/
def c2First : SimpleRoll := (execute ctxW 29 c2Roll).getD c2Roll

/-- The probe roll after executing the already-resolved roll again with
entropy 49 (raw draw 50). -/
def c2Second : SimpleRoll := (execute ctxW 49 c2First).getD c2First

/-- Counterexample to C2 as stated: executing an already-resolved roll
does not fail — the second call succeeds and overwrites the resolved
fields (here the raw draw changes from 30 to 50). -/
theorem c2_reexecution_counterexample :
    execute ctxW 29 c2Roll = some c2First ∧
    execute ctxW 49 c2First = some c2Second ∧
    c2First.raw_roll = some 30 ∧ c2Second.raw_roll = some 50 ∧
    c2Second.raw_roll ≠ c2First.raw_roll :=
  ⟨rfl, rfl, rfl, rfl, by decide⟩

/-- C2 (amended): `execute` never checks for a resolved state; re-executing
a resolved roll succeeds and behaves exactly like executing the original
unresolved roll with the new draw, overwriting every resolved field. -/
theorem c2_reexecution_overwrites (ctx : CheckContext) (e1 e2 : Nat) (r r1 : SimpleRoll)
    (h : execute ctx e1 r = some r1) :
    execute ctx e2 r1 = execute ctx e2 r := by
  cases r with
  | mk c st sk ra rec tt rr rv ro nt rm =>
    unfold execute at h
    rcases ra with _ | rt
    · cases h
    · cases Option.some.inj h
      rfl

/-- Witness for C2's amended statement at the concrete probe roll. -/
theorem c2_reexecution_overwrites_witness :
    execute ctxW 29 c2Roll = some c2First ∧
    execute ctxW 49 c2First = execute ctxW 49 c2Roll :=
  ⟨rfl, c2_reexecution_overwrites ctxW 29 49 c2Roll c2First rfl⟩

/-- The name sort is sorted under the string order. -/
theorem sortStrings_sorted (names : List String) :
    (sortStrings names).Pairwise (fun a b => a ≤ b) := by
  refine (stableSortBy_pairwise (fun y x => decide (x < y)) names ?_ ?_).imp ?_
  · intro a _ b _ hab
    rw [decide_eq_true_eq] at hab
    rw [decide_eq_false_iff_not]
    exact lt_asymm hab
  · intro a _ b _ c _ hab hbc
    rw [decide_eq_true_eq] at hab hbc
    rw [decide_eq_true_eq]
    exact lt_trans hbc hab
  · intro a b hab
    rw [decide_eq_false_iff_not] at hab
    exact le_of_not_lt hab

/-- C8: the private-roll suffix falls back to the self-only form exactly
when nobody besides the actor would see the roll; otherwise it joins the
sorted plain-player names followed by the sorted staff names, every staff
name carrying the presentation marker. -/
theorem c8_private_suffix (c : Character) (receivers : List Character) :
    (receiverListOf c receivers = [] →
      receiverSuffix c receivers = "(Shared with: self-only)") ∧
    (receiverListOf c receivers ≠ [] →
      ∃ L1 L2 : List String,
        receiverSuffix c receivers =
          "(Shared with: " ++ String.intercalate ", " (L1 ++ L2) ++ ")" ∧
        List.Perm L1 (pcReceiverNames receivers) ∧ L1.Pairwise (fun a b => a ≤ b) ∧
        List.Perm L2 (staffReceiverNames receivers) ∧ L2.Pairwise (fun a b => a ≤ b) ∧
        (∀ n ∈ L2, ∃ m, n = markStaff m)) := by
  constructor
  · intro h
    unfold receiverSuffix
    rw [if_pos (by rw [h]; rfl)]
  · intro h
    refine ⟨sortStrings (pcReceiverNames receivers),
      sortStrings (staffReceiverNames receivers), ?_, ?_, ?_, ?_, ?_, ?_⟩
    · unfold receiverSuffix
      rw [if_neg (by rw [List.length_eq_zero]; exact h)]
      rfl
    · exact stableSortBy_perm _ _
    · exact sortStrings_sorted _
    · exact stableSortBy_perm _ _
    · exact sortStrings_sorted _
    · intro n hn
      have hmem : n ∈ staffReceiverNames receivers :=
        ((stableSortBy_perm _ _).mem_iff).mp hn
      unfold staffReceiverNames at hmem
      obtain ⟨ob, -, hob⟩ := List.mem_map.mp hmem
      exact ⟨ob.name, hob.symm⟩

/-- A staff character receiving a private roll. -/
def staffC : Character := ⟨4, "zoe", "zoe", true, false⟩

/-- Witness for C8's non-empty branch with one plain player and one staff
receiver. -/
theorem c8_private_suffix_witness :
    receiverListOf charA [charB, staffC] ≠ [] ∧
    (∃ L1 L2 : List String,
      receiverSuffix charA [charB, staffC] =
        "(Shared with: " ++ String.intercalate ", " (L1 ++ L2) ++ ")" ∧
      List.Perm L1 (pcReceiverNames [charB, staffC]) ∧
      L1.Pairwise (fun a b => a ≤ b) ∧
      List.Perm L2 (staffReceiverNames [charB, staffC]) ∧
      L2.Pairwise (fun a b => a ≤ b) ∧
      (∀ n ∈ L2, ∃ m, n = markStaff m)) :=
  ⟨by decide, (c8_private_suffix charA [charB, staffC]).2 (by decide)⟩
